import Mathlib

/-!
Verification of `tools/generate_instance_type_catalog.py`.

The script fetches EC2 instance-type records page by page, normalizes each
record with `json_safe`, indexes the normalized records by their
`InstanceType` identifier (last write wins), sorts the identifiers, and
writes a JSON document with provenance metadata.  This file gives a shallow
embedding of that pipeline and proves the specification claims about it.

Modelling conventions:
- Python values that can appear in a record are modelled by the inductive
  type `Value` (mappings are association lists in insertion order, as in
  Python dicts; floats are modelled by their exact rational value).
- Python strings are modelled by Lean `String`; rendered output is built as
  `List Char` and wrapped with `String.mk`.
- Machine integers do not occur: Python integers are unbounded, so `Int`
  and `Nat` are exact models.
- The process-level behaviour of `main` (exit code, the single file write,
  directory creation, stderr diagnostics) is modelled by a pure function
  from the fetch outcome, the CLI configuration and the current clock value
  to a `RunResult`.
-/

namespace CatalogGen

/-! ## Characters and fixed-width decimal rendering

Python renders the timestamp fields of `datetime.isoformat` with
fixed-width zero-padded decimal fields (`%04d-%02d-%02dT%02d:%02d:%02d`
plus an optional `.%06d` fraction).  The helpers below produce exactly
those digit sequences.  All field values are within range at every call
site (they come out of a `datetime`), so the fixed width is faithful. -/

def digitChar (d : Nat) : Char := Char.ofNat (48 + d)

def pad2 (n : Nat) : List Char := [digitChar (n / 10), digitChar (n % 10)]

def pad4 (n : Nat) : List Char :=
  [digitChar (n / 1000), digitChar (n / 100 % 10), digitChar (n / 10 % 10), digitChar (n % 10)]

def pad6 (n : Nat) : List Char :=
  [digitChar (n / 100000), digitChar (n / 10000 % 10), digitChar (n / 1000 % 10),
   digitChar (n / 100 % 10), digitChar (n / 10 % 10), digitChar (n % 10)]

/-! ## Python string ordering

Python compares strings lexicographically by Unicode code point; `sorted`
on the identifier strings uses this order.  We model it directly on the
underlying character lists.  (Lean's built-in `String` order is the same
order, but its iterator-based decision procedure does not reduce in the
kernel, so we use this executable definition.) -/

def lexLe : List Char → List Char → Bool
  | [], _ => true
  | _ :: _, [] => false
  | a :: as, b :: bs =>
      if a.toNat < b.toNat then true
      else if a.toNat = b.toNat then lexLe as bs
      else false

def lexLt : List Char → List Char → Bool
  | [], [] => false
  | [], _ :: _ => true
  | _ :: _, [] => false
  | a :: as, b :: bs =>
      if a.toNat < b.toNat then true
      else if a.toNat = b.toNat then lexLt as bs
      else false

/-- Code-point lexicographic order on strings, as used by Python `sorted`. -/
def keyLe (a b : String) : Prop := lexLe a.data b.data = true

/-- Strict code-point lexicographic order on strings. -/
def keyLt (a b : String) : Prop := lexLt a.data b.data = true

instance : DecidableRel keyLe := fun a b => by unfold keyLe; infer_instance

instance : DecidableRel keyLt := fun a b => by unfold keyLt; infer_instance

instance : IsTotal String keyLe := by
  constructor
  intro a b
  unfold keyLe
  generalize a.data = x
  generalize b.data = y
  induction x generalizing y with
  | nil => left; rfl
  | cons c cs ih =>
      cases y with
      | nil => right; rfl
      | cons d ds =>
          rcases ih ds with h | h <;> simp [lexLe, h] <;> omega

instance : IsTrans String keyLe := by
  constructor
  intro a b c
  unfold keyLe
  generalize a.data = x
  generalize b.data = y
  generalize c.data = z
  induction x generalizing y z with
  | nil => intro _ _; rfl
  | cons c1 cs ih =>
      cases y with
      | nil => intro h; simp [lexLe] at h
      | cons c2 ds =>
          cases z with
          | nil => intro _ h; simp [lexLe] at h
          | cons c3 es =>
              simp only [lexLe]
              intro h1 h2
              split_ifs at h1 h2 ⊢ <;>
                first
                  | rfl
                  | omega
                  | exact ih ds es h1 h2

/-! ## Python `str.replace`

`"s".replace(pat, rep)` scans left to right and replaces each
non-overlapping occurrence of `pat`.  The source uses it with the fixed
non-empty pattern `"+00:00"`. -/

def replaceAll (pat rep : List Char) : List Char → List Char
  | [] => []
  | c :: cs =>
      if pat.isEmpty then c :: cs
      else if (c :: cs).take pat.length = pat then
        rep ++ replaceAll pat rep ((c :: cs).drop pat.length)
      else
        c :: replaceAll pat rep cs
termination_by l => l.length
decreasing_by
  · simp only [List.length_drop, List.length_cons]
    have hp : pat.length ≠ 0 := by
      intro h
      exact absurd (List.isEmpty_iff.mpr (List.length_eq_zero.mp h)) (by assumption)
    omega
  · simp

/-! ## Timezone-aware timestamps

`boto3` returns timezone-aware `datetime` values.  A Python `datetime`
carries calendar fields plus a fixed-offset `tzinfo`; we model it by those
fields together with the offset of its timezone (`utcoffset`, in
microseconds; Python requires the offset to be strictly less than one day
in magnitude, and this model does not depend on that bound).  The fields
are `Int` so that the calendar arithmetic below is uniform. -/

structure PyDatetime where
  year : Int
  month : Int
  day : Int
  hour : Int
  minute : Int
  second : Int
  microsecond : Int
  offsetMicros : Int
  deriving Repr, DecidableEq

/-- Gregorian calendar date for a given day number (days since 1970-01-01,
possibly negative), returned as `(year, month, day)`.  This is the standard
era-based algorithm (Howard Hinnant's `civil_from_days`), equivalent to
CPython's ordinal-to-date conversion; `/` and `%` on `Int` are Euclidean,
which agrees with floor division here because every divisor is positive. -/
def civilFromDays (z : Int) : Int × Int × Int :=
  let w := z + 719468
  let era := w / 146097
  let doe := w % 146097
  let yoe := (doe - doe / 1460 + doe / 36524 - doe / 146096) / 365
  let y := yoe + era * 400
  let doy := doe - (365 * yoe + yoe / 4 - yoe / 100)
  let mp := (5 * doy + 2) / 153
  let d := doy - (153 * mp + 2) / 5 + 1
  let m := mp + (if mp < 10 then 3 else -9)
  (y + (if m ≤ 2 then 1 else 0), m, d)

/-- Day number (days since 1970-01-01) of a Gregorian calendar date:
Hinnant's `days_from_civil`, the inverse of `civilFromDays`. -/
def daysFromCivil (y m d : Int) : Int :=
  let y1 := y - (if m ≤ 2 then 1 else 0)
  let era := y1 / 400
  let yoe := y1 % 400
  let mp := m + (if 2 < m then -3 else 9)
  let doy := (153 * mp + 2) / 5 + d - 1
  let doe := yoe * 365 + yoe / 4 - yoe / 100 + doy
  era * 146097 + doe - 719468

/-- The instant denoted by an aware `datetime`, in microseconds since the
Unix epoch: calendar fields give wall-clock time, and subtracting the
timezone offset yields UTC. -/
def PyDatetime.utcInstantMicros (t : PyDatetime) : Int :=
  daysFromCivil t.year t.month t.day * 86400000000
    + (t.hour * 3600 + t.minute * 60 + t.second) * 1000000
    + t.microsecond
    - t.offsetMicros

/-- The UTC `datetime` (offset zero) denoting a given instant. -/
def datetimeFromInstant (i : Int) : PyDatetime :=
  let days := i / 86400000000
  let rem := i % 86400000000
  let c := civilFromDays days
  { year := c.1
    month := c.2.1
    day := c.2.2
    hour := rem / 3600000000
    minute := rem / 60000000 % 60
    second := rem / 1000000 % 60
    microsecond := rem % 1000000
    offsetMicros := 0 }

/-- Python `dt.astimezone(UTC)`: re-express the same instant in UTC. -/
def PyDatetime.astimezoneUTC (t : PyDatetime) : PyDatetime :=
  datetimeFromInstant t.utcInstantMicros

/-- The UTC-offset suffix of `datetime.isoformat` for a fixed offset given
in microseconds: sign, `HH:MM`, then `:SS` and `.ffffff` only when they are
nonzero.  For offset zero this is the literal `+00:00`. -/
def offsetSuffix (offMicros : Int) : List Char :=
  let sign : Char := if offMicros < 0 then '-' else '+'
  let a := offMicros.natAbs
  let hh := a / 3600000000
  let mm := a / 60000000 % 60
  let ss := a / 1000000 % 60
  let us := a % 1000000
  sign :: pad2 hh ++ ':' :: pad2 mm
    ++ (if ss = 0 ∧ us = 0 then [] else ':' :: pad2 ss ++ (if us = 0 then [] else '.' :: pad6 us))

/-- `datetime.isoformat()` for an aware `datetime`:
`YYYY-MM-DDTHH:MM:SS[.ffffff]` followed by the UTC-offset suffix; the
six-digit fraction is included exactly when the microsecond field is
nonzero. -/
def isoformatChars (t : PyDatetime) : List Char :=
  pad4 t.year.toNat ++ '-' :: pad2 t.month.toNat ++ '-' :: pad2 t.day.toNat
    ++ 'T' :: pad2 t.hour.toNat ++ ':' :: pad2 t.minute.toNat ++ ':' :: pad2 t.second.toNat
    ++ (if t.microsecond = 0 then [] else '.' :: pad6 t.microsecond.toNat)
    ++ offsetSuffix t.offsetMicros

/-- The pattern `+00:00` replaced by `json_safe`. -/
def plusZeroChars : List Char := ['+', '0', '0', ':', '0', '0']

/-- The string produced by `json_safe` for an aware `datetime`:
`value.astimezone(UTC).isoformat().replace("+00:00", "Z")`. -/
def jsonSafeDatetimeChars (t : PyDatetime) : List Char :=
  replaceAll plusZeroChars ['Z'] (isoformatChars t.astimezoneUTC)

/-! ## Calendar dates -/

/-- A Python `date` value. -/
structure PyDate where
  year : Int
  month : Int
  day : Int
  deriving Repr, DecidableEq

/-- `date.isoformat()`: the ISO-8601 calendar date `YYYY-MM-DD`. -/
def dateIsoChars (d : PyDate) : List Char :=
  pad4 d.year.toNat ++ '-' :: pad2 d.month.toNat ++ '-' :: pad2 d.day.toNat

/-! ## Fixed-point decimals

A finite Python `Decimal` is a scaled integer: coefficient times a power
of ten.  We model it by its mantissa and (possibly negative) decimal
exponent; the denoted value is `mantissa * 10 ^ exponent`.  Non-finite
decimals (NaN, infinities) cannot come out of the AWS response parser and
are not modelled. -/

structure PyDecimal where
  mantissa : Int
  exponent : Int
  deriving Repr, DecidableEq

/-- The exact rational value of a decimal. -/
def PyDecimal.toRat (d : PyDecimal) : ℚ :=
  if 0 ≤ d.exponent then ((d.mantissa * 10 ^ d.exponent.toNat : ℤ) : ℚ)
  else (d.mantissa : ℚ) / ((10 ^ (-d.exponent).toNat : ℕ) : ℚ)

/-- Python `value % 1 == 0` on a finite decimal: true exactly when the
denoted value has zero fractional part, i.e. when the scale divides the
mantissa. -/
def PyDecimal.modOneEqZero (d : PyDecimal) : Bool :=
  if 0 ≤ d.exponent then true
  else d.mantissa % (10 ^ (-d.exponent).toNat : ℤ) == 0

/-- Python `int(value)` on a finite decimal: truncation toward zero
(`Int.tdiv`); the branch of `json_safe` that uses it only does so when the
value is exact, in which case truncation is exact division. -/
def PyDecimal.intValue (d : PyDecimal) : Int :=
  if 0 ≤ d.exponent then d.mantissa * 10 ^ d.exponent.toNat
  else d.mantissa.tdiv (10 ^ (-d.exponent).toNat)

/-- Python `float(value)` on a finite decimal.  Floats are modelled by
their exact rational value throughout this development, so the conversion
is modelled exactly (CPython rounds to the nearest binary64; no claim in
scope depends on that rounding). -/
def PyDecimal.floatValue (d : PyDecimal) : ℚ := d.toRat

/-! ## Values

The structured values that can appear in provider records and in the
output document.  Mappings are association lists in insertion order (a
Python dict has unique keys; the operations below use the first binding of
a key, matching dict semantics on any list whose keys are unique). -/

inductive Value where
  | vnull
  | vbool (b : Bool)
  | vint (n : Int)
  | vfloat (q : ℚ)
  | vstr (s : String)
  | vlist (items : List Value)
  | vdict (entries : List (String × Value))
  | vdatetime (t : PyDatetime)
  | vdate (d : PyDate)
  | vdecimal (d : PyDecimal)
  deriving Repr

/-! ## The normalizer `json_safe`

Recursive dispatch over the shape of the value, exactly as in the source:
dicts and lists recurse; an aware datetime becomes its UTC ISO-8601 string
with a `Z` suffix; a date becomes its ISO calendar-date string; a decimal
becomes an `int` when `value % 1 == 0` and a `float` otherwise; everything
else passes through unchanged. -/

mutual

def json_safe : Value → Value
  | .vdict entries => .vdict (json_safeEntries entries)
  | .vlist items => .vlist (json_safeList items)
  | .vdatetime t => .vstr (String.mk (jsonSafeDatetimeChars t))
  | .vdate d => .vstr (String.mk (dateIsoChars d))
  | .vdecimal d => if d.modOneEqZero then .vint d.intValue else .vfloat d.floatValue
  | v => v

def json_safeList : List Value → List Value
  | [] => []
  | v :: vs => json_safe v :: json_safeList vs

def json_safeEntries : List (String × Value) → List (String × Value)
  | [] => []
  | (k, v) :: rest => (k, json_safe v) :: json_safeEntries rest

end

/-! ## The catalog

`instance_types` is a Python dict built incrementally: assignment to an
existing key replaces the value in place, assignment to a fresh key
appends. -/

/-- A provider record: a mapping from field names to values. -/
abbrev RawRecord := List (String × Value)

/-- The in-memory catalog: instance-type identifier to normalized record. -/
abbrev Catalog := List (String × Value)

/-- Python dict assignment `m[k] = v`: replace in place when the key is
present, append otherwise. -/
def dictInsert (k : String) (v : Value) (m : Catalog) : Catalog :=
  if m.any (fun kv => kv.1 == k) then
    m.map (fun kv => if kv.1 == k then (kv.1, v) else kv)
  else m ++ [(k, v)]

/-- One iteration of the fetch loop body: normalize the record, extract
`item.get("InstanceType")`, skip unless it is a non-empty string, and
otherwise insert the normalized record under that identifier. -/
def processRecord (m : Catalog) (raw : RawRecord) : Catalog :=
  let item := json_safeEntries raw
  match List.lookup "InstanceType" item with
  | some (Value.vstr s) => if s = "" then m else dictInsert s (Value.vdict item) m
  | _ => m

/-- The identifier under which a record is inserted, if any: `none` when
the `InstanceType` field is missing, not a string, or empty. -/
def recordId (raw : RawRecord) : Option String :=
  match List.lookup "InstanceType" (json_safeEntries raw) with
  | some (Value.vstr s) => if s = "" then none else some s
  | _ => none

/-- The catalog accumulated over a flat list of records. -/
def buildCatalog (records : List RawRecord) : Catalog :=
  records.foldl processRecord []

/-- The catalog accumulated over the paginated response, page by page and
record by record, as in the nested fetch loops. -/
def buildCatalogPages (pages : List (List RawRecord)) : Catalog :=
  pages.foldl (fun m page => page.foldl processRecord m) []

/-- `sorted(instance_types)`: the keys in code-point lexicographic order. -/
def sortedKeys (m : Catalog) : List String :=
  List.insertionSort keyLe (m.map Prod.fst)

/-- The dict comprehension rebuilding the mapping in sorted key order:
every key of `m` paired with its looked-up value. -/
def sortCatalog (m : Catalog) : Catalog :=
  (sortedKeys m).filterMap (fun k => (List.lookup k m).map (fun v => (k, v)))

/-! ## JSON serialization

`json.dumps(payload, indent=2, sort_keys=True)` with the default
`ensure_ascii=True`.  `json.dumps` raises `TypeError` on values it cannot
serialize (here: the datetime, date and decimal constructors, which
`json_safe` always eliminates); `pyDumps` returns `none` in that case. -/

mutual

def hasExotic : Value → Bool
  | .vdict entries => hasExoticEntries entries
  | .vlist items => hasExoticList items
  | .vdatetime _ => true
  | .vdate _ => true
  | .vdecimal _ => true
  | _ => false

def hasExoticList : List Value → Bool
  | [] => false
  | v :: vs => hasExotic v || hasExoticList vs

def hasExoticEntries : List (String × Value) → Bool
  | [] => false
  | (_, v) :: rest => hasExotic v || hasExoticEntries rest

end

def lbrace : Char := '\x7b'

def rbrace : Char := '\x7d'

def hexDigit (d : Nat) : Char :=
  if d < 10 then digitChar d else Char.ofNat (87 + d)

def hex4 (n : Nat) : List Char :=
  [hexDigit (n / 4096 % 16), hexDigit (n / 256 % 16), hexDigit (n / 16 % 16), hexDigit (n % 16)]

/-- JSON escaping of one character with `ensure_ascii=True`: the two
mandatory escapes, the short control escapes, `\uXXXX` for the remaining
control and all non-ASCII characters (a surrogate pair above the basic
plane), and printable ASCII unchanged. -/
def escapeChar (c : Char) : List Char :=
  if c = '"' then ['\\', '"']
  else if c = '\\' then ['\\', '\\']
  else if c = '\n' then ['\\', 'n']
  else if c = '\t' then ['\\', 't']
  else if c = '\r' then ['\\', 'r']
  else if c = '\x08' then ['\\', 'b']
  else if c = '\x0c' then ['\\', 'f']
  else if c.toNat < 32 ∨ 126 < c.toNat then
    if c.toNat < 65536 then '\\' :: 'u' :: hex4 c.toNat
    else
      let v := c.toNat - 65536
      '\\' :: 'u' :: hex4 (55296 + v / 1024) ++ '\\' :: 'u' :: hex4 (56320 + v % 1024)
  else [c]

/-- A JSON string literal: quote, escaped characters, quote. -/
def quoteChars (s : String) : List Char :=
  '"' :: (s.data.map escapeChar).flatten ++ ['"']

/-- Python `repr` of an `int`: plain decimal. -/
def renderInt (n : Int) : List Char := (toString n).data

/-- Decimal expansion of the fractional part `num / den`, most significant
digit first, stopping when the remainder vanishes.  The fuel bounds the
number of digits; every binary64 float value terminates within 1100
digits. -/
def fracDigits (fuel : Nat) (num den : Nat) : List Char :=
  match fuel with
  | 0 => []
  | fuel' + 1 =>
      if num = 0 then []
      else digitChar (num * 10 / den) :: fracDigits fuel' (num * 10 % den) den

/-- Python `repr` of a float.  Floats are modelled by their exact rational
value, so this renders the exact decimal expansion with at least one
fractional digit (CPython renders the shortest string that round-trips;
the difference does not affect any claim in scope, and on exactly
representable inputs such as `16.5` the two agree). -/
def renderFloat (q : ℚ) : List Char :=
  let sign : List Char := if q.num < 0 then ['-'] else []
  let n := q.num.natAbs
  let frac := fracDigits 1100 (n % q.den) q.den
  sign ++ (toString (n / q.den)).data ++ '.' :: (if frac.isEmpty then ['0'] else frac)

def indentChars (n : Nat) : List Char := List.replicate n ' '

/-- Key order used by `sort_keys=True` at every mapping. -/
def entryLe (a b : String × Value) : Prop := keyLe a.1 b.1

instance : DecidableRel entryLe :=
  fun a b => inferInstanceAs (Decidable (keyLe a.1 b.1))

instance : IsTotal (String × Value) entryLe :=
  ⟨fun a b => IsTotal.total (r := keyLe) a.1 b.1⟩

instance : IsTrans (String × Value) entryLe :=
  ⟨fun a b c h1 h2 => IsTrans.trans (r := keyLe) a.1 b.1 c.1 h1 h2⟩

/-- The entries of a mapping in the order `sort_keys=True` emits them. -/
def sortEntries (es : List (String × Value)) : List (String × Value) :=
  List.insertionSort entryLe es

/-- The serializer of `json.dumps(..., indent=2, sort_keys=True)`:
an empty container renders on one line; a non-empty container opens its
bracket, renders each element on its own line indented two spaces deeper
with `,` separators, and closes the bracket at the container's own indent.
Mapping entries are emitted in sorted key order at every nesting level.
`lvl` is the indentation of the construct's closing bracket. -/
def serialize (lvl : Nat) : Value → List Char
  | .vnull => "null".data
  | .vbool b => if b then "true".data else "false".data
  | .vint n => renderInt n
  | .vfloat q => renderFloat q
  | .vstr s => quoteChars s
  | .vdatetime _ => []
  | .vdate _ => []
  | .vdecimal _ => []
  | .vlist [] => ['[', ']']
  | .vlist (x :: xs) =>
      '[' :: '\n' ::
        (List.intercalate [',', '\n']
            ((x :: xs).attach.map
              (fun p => indentChars (lvl + 2) ++ serialize (lvl + 2) p.1))
          ++ '\n' :: (indentChars lvl ++ [']']))
  | .vdict [] => [lbrace, rbrace]
  | .vdict (e :: es) =>
      lbrace :: '\n' ::
        (List.intercalate [',', '\n']
            ((sortEntries (e :: es)).attach.map
              (fun p => indentChars (lvl + 2) ++ quoteChars p.1.1
                ++ ':' :: ' ' :: serialize (lvl + 2) p.1.2))
          ++ '\n' :: (indentChars lvl ++ [rbrace]))
termination_by v => sizeOf v
decreasing_by
  · have h1 := List.sizeOf_lt_of_mem p.2
    simp only [Value.vlist.sizeOf_spec]
    omega
  · have h1 := List.sizeOf_lt_of_mem
      (((List.perm_insertionSort entryLe (e :: es)).mem_iff).mp p.2)
    have h2 : sizeOf p.1.2 < sizeOf p.1 := by
      obtain ⟨a, b⟩ := p.1
      simp only [Prod.mk.sizeOf_spec]
      omega
    simp only [Value.vdict.sizeOf_spec]
    omega

/-- `json.dumps(v, indent=2, sort_keys=True)`: `none` models the raised
`TypeError` for non-JSON values, which cannot occur for normalized
payloads. -/
def pyDumps (v : Value) : Option (List Char) :=
  if hasExotic v then none else some (serialize 0 v)

/-! ## The run model

`main` is modelled as a pure function of the CLI configuration, the
outcome of the paginated fetch, and the clock value read by
`datetime.now(UTC)`.  The fetch outcome records the record pages delivered
before the paginator either finished or raised; `failure = some exc`
models a `BotoCoreError`/`ClientError` with message `exc` raised after
those pages were processed.  The result captures everything observable:
the exit status, whether the output directory was created, the file
content written (if any), and the diagnostics printed to stderr. -/

structure Config where
  output : String
  region : String
  profile : String
  allowEmpty : Bool
  deriving Repr, DecidableEq

/-- The defaults of `parse_args`. -/
def defaultConfig : Config :=
  { output := "pkg/dc2/instancetype/data/instance_types.json"
    region := "us-east-1"
    profile := ""
    allowEmpty := false }

structure FetchOutcome where
  pages : List (List RawRecord)
  failure : Option String
  deriving Repr

structure RunResult where
  exitCode : Nat
  dirCreated : Bool
  written : Option String
  stderrLines : List String
  deriving Repr

def failMsg (region exc : String) : String :=
  "failed to query " ++ region ++ ": " ++ exc

def contMsg : String :=
  "continuing with an empty catalog because --allow-empty was set"

def emptyMsg : String :=
  "no instance type data was collected"

def wroteMsg (n : Nat) (output : String) : String :=
  "wrote " ++ toString n ++ " instance types to " ++ output

/-- `datetime.now(UTC).isoformat().replace("+00:00", "Z")`. -/
def genAtChars (now : PyDatetime) : List Char :=
  replaceAll plusZeroChars ['Z'] (isoformatChars now)

/-- The `payload` dict, assembled from the already-sorted catalog: the
generation timestamp, the query parameters, the statistics (instance-type
count and the fixed offering count 0), the sorted mapping itself, and the
fixed empty offerings list. -/
def payloadFor (region : String) (genAt : List Char) (sortedCat : Catalog) : Value :=
  .vdict
    [("generated_at", .vstr (String.mk genAt)),
     ("query", .vdict [("source_region", .vstr region)]),
     ("stats", .vdict
        [("instance_type_count", .vint (sortedCat.length : Int)),
         ("offering_count", .vint 0)]),
     ("instance_types", .vdict sortedCat),
     ("offerings", .vlist [])]

/-- The tail of `main` after the `except` handler: the empty-catalog
guard, sorting, payload assembly, directory creation and the single write.
`stderr0` is whatever the failure handling already printed.  In the
(unreachable for normalized data) case that `json.dumps` raises, the
directory has already been created, nothing is written, and the process
dies with a nonzero status. -/
def finishRun (cfg : Config) (stderr0 : List String) (instance_types : Catalog)
    (now : PyDatetime) : RunResult :=
  if instance_types.isEmpty && !cfg.allowEmpty then
    { exitCode := 1, dirCreated := false, written := none
      stderrLines := stderr0 ++ [emptyMsg] }
  else
    let sorted_instance_types := sortCatalog instance_types
    let payload := payloadFor cfg.region (genAtChars now) sorted_instance_types
    match pyDumps payload with
    | none =>
        { exitCode := 1, dirCreated := true, written := none, stderrLines := stderr0 }
    | some body =>
        { exitCode := 0, dirCreated := true
          written := some (String.mk (body ++ ['\n']))
          stderrLines := stderr0 ++ [wroteMsg sorted_instance_types.length cfg.output] }

/-- The whole run: accumulate the catalog over the delivered pages, handle
a fetch failure according to `--allow-empty`, then finish. -/
def main (cfg : Config) (fetch : FetchOutcome) (now : PyDatetime) : RunResult :=
  let instance_types := buildCatalogPages fetch.pages
  match fetch.failure with
  | some exc =>
      if !cfg.allowEmpty then
        { exitCode := 1, dirCreated := false, written := none
          stderrLines := [failMsg cfg.region exc] }
      else
        finishRun cfg [failMsg cfg.region exc, contMsg] instance_types now
  | none => finishRun cfg [] instance_types now

/-! ## Parsing the normalized timestamp back

An explicit parser for the strings `json_safe` produces for aware
datetimes: `YYYY-MM-DDTHH:MM:SS[.ffffff]Z`, read back as a UTC
`datetime`.  It is the left inverse used to state that the rendered
string determines the instant. -/

def parseDigitChar (c : Char) : Option Nat :=
  if 48 ≤ c.toNat ∧ c.toNat ≤ 57 then some (c.toNat - 48) else none

def parse2 (a b : Char) : Option Nat := do
  let x ← parseDigitChar a
  let y ← parseDigitChar b
  pure (x * 10 + y)

def parse4 (a b c d : Char) : Option Nat := do
  let x ← parse2 a b
  let y ← parse2 c d
  pure (x * 100 + y)

def parse6 (a b c d e f : Char) : Option Nat := do
  let x ← parse2 a b
  let y ← parse2 c d
  let z ← parse2 e f
  pure (x * 10000 + y * 100 + z)

def parseIsoZ (l : List Char) : Option PyDatetime :=
  match l with
  | y1 :: y2 :: y3 :: y4 :: '-' :: mo1 :: mo2 :: '-' :: d1 :: d2 :: 'T' ::
      h1 :: h2 :: ':' :: mi1 :: mi2 :: ':' :: s1 :: s2 :: rest => do
    let y ← parse4 y1 y2 y3 y4
    let mo ← parse2 mo1 mo2
    let d ← parse2 d1 d2
    let h ← parse2 h1 h2
    let mi ← parse2 mi1 mi2
    let s ← parse2 s1 s2
    match rest with
    | ['Z'] =>
        pure ⟨(y : Int), (mo : Int), (d : Int), (h : Int), (mi : Int), (s : Int), 0, 0⟩
    | '.' :: f1 :: f2 :: f3 :: f4 :: f5 :: f6 :: ['Z'] => do
        let us ← parse6 f1 f2 f3 f4 f5 f6
        pure ⟨(y : Int), (mo : Int), (d : Int), (h : Int), (mi : Int), (s : Int), (us : Int), 0⟩
    | _ => none
  | _ => none

/-! # Theorems -/

/-! ## Idempotence of the normalizer (C6) -/

mutual

theorem json_safe_idem (v : Value) : json_safe (json_safe v) = json_safe v := by
  cases v with
  | vdict entries => simp [json_safe, json_safeEntries_idem entries]
  | vlist items => simp [json_safe, json_safeList_idem items]
  | vdatetime t => simp [json_safe]
  | vdate d => simp [json_safe]
  | vdecimal d =>
      simp only [json_safe]
      split <;> simp [json_safe]
  | vnull => rfl
  | vbool b => rfl
  | vint n => rfl
  | vfloat q => rfl
  | vstr s => rfl

theorem json_safeList_idem (l : List Value) :
    json_safeList (json_safeList l) = json_safeList l := by
  cases l with
  | nil => rfl
  | cons v vs => simp [json_safeList, json_safe_idem v, json_safeList_idem vs]

theorem json_safeEntries_idem (l : List (String × Value)) :
    json_safeEntries (json_safeEntries l) = json_safeEntries l := by
  cases l with
  | nil => rfl
  | cons kv rest =>
      obtain ⟨k, v⟩ := kv
      simp [json_safeEntries, json_safe_idem v, json_safeEntries_idem rest]

end

/-- C6: The normalizer is idempotent: for every value `v`, normalizing
`json_safe v` returns it unchanged, i.e.
`json_safe (json_safe v) = json_safe v`. -/
theorem c6_normalizer_idempotent (v : Value) :
    json_safe (json_safe v) = json_safe v :=
  json_safe_idem v

/-! ## Float passthrough (C10) -/

/-- C10: The integer-conversion rule applies only to fixed-point decimal
inputs; an ordinary floating-point value (in particular one with zero
fractional part, such as `4.0`) passes through `json_safe` unchanged as a
float and is never converted to an integer. -/
theorem c10_float_passthrough (q : ℚ) :
    json_safe (.vfloat q) = .vfloat q ∧ ∀ n : Int, json_safe (.vfloat q) ≠ .vint n := by
  constructor
  · simp [json_safe]
  · intro n
    simp [json_safe]

/-! ## Decimal normalization (C4) -/

theorem modOneEqZero_iff (d : PyDecimal) :
    d.modOneEqZero = true ↔ ∃ m : ℤ, d.toRat = (m : ℚ) := by
  unfold PyDecimal.modOneEqZero PyDecimal.toRat
  by_cases h : 0 ≤ d.exponent
  · simp only [h, if_true]
    constructor
    · intro _
      exact ⟨d.mantissa * 10 ^ d.exponent.toNat, rfl⟩
    · intro _
      trivial
  · simp only [h, if_false, beq_iff_eq]
    constructor
    · intro hmod
      obtain ⟨c, hc⟩ := Int.dvd_of_emod_eq_zero hmod
      refine ⟨c, ?_⟩
      rw [hc]
      push_cast
      rw [mul_comm, mul_div_assoc, div_self, mul_one]
      exact_mod_cast pow_ne_zero _ (by norm_num : (10 : ℚ) ≠ 0)
    · rintro ⟨m, hm⟩
      have hden : ((10 ^ (-d.exponent).toNat : ℕ) : ℚ) ≠ 0 := by
        exact_mod_cast pow_ne_zero _ (by norm_num : (10 : ℚ) ≠ 0)
      rw [div_eq_iff hden] at hm
      have hz : d.mantissa = m * 10 ^ (-d.exponent).toNat := by exact_mod_cast hm
      rw [hz]
      exact Int.mul_emod_left m _

theorem intValue_exact (d : PyDecimal) (h : d.modOneEqZero = true) :
    ((d.intValue : ℤ) : ℚ) = d.toRat := by
  unfold PyDecimal.intValue PyDecimal.toRat
  unfold PyDecimal.modOneEqZero at h
  by_cases he : 0 ≤ d.exponent
  · simp [he]
  · simp only [he, if_false, beq_iff_eq] at h ⊢
    obtain ⟨c, hc⟩ := Int.dvd_of_emod_eq_zero h
    rw [hc, Int.mul_tdiv_cancel_left _ (by positivity)]
    push_cast
    rw [mul_comm, mul_div_assoc, div_self, mul_one]
    exact_mod_cast pow_ne_zero _ (by norm_num : (10 : ℚ) ≠ 0)

/-- C4: For every fixed-point decimal `d`, normalization returns an
integer iff `d` has zero fractional part (and that integer equals `d`
exactly as a rational); otherwise normalization returns the
floating-point value `float(d)`.  E.g. `Decimal("4.0")` becomes the
integer `4` and `Decimal("4.5")` becomes the float `4.5` (see the
witness). -/
theorem c4_decimal_normalization (d : PyDecimal) :
    ((∃ n : ℤ, json_safe (.vdecimal d) = .vint n ∧ ((n : ℤ) : ℚ) = d.toRat)
        ↔ ∃ m : ℤ, d.toRat = (m : ℚ))
    ∧ ((¬ ∃ m : ℤ, d.toRat = (m : ℚ)) → json_safe (.vdecimal d) = .vfloat d.floatValue) := by
  constructor
  · constructor
    · rintro ⟨n, hn, hval⟩
      exact ⟨n, hval.symm⟩
    · intro hint
      have hmod : d.modOneEqZero = true := (modOneEqZero_iff d).mpr hint
      refine ⟨d.intValue, ?_, intValue_exact d hmod⟩
      simp [json_safe, hmod]
  · intro hnot
    have hmod : d.modOneEqZero = false := by
      rcases Bool.eq_false_or_eq_true d.modOneEqZero with h | h
      · exact absurd ((modOneEqZero_iff d).mp h) hnot
      · exact h
    simp [json_safe, hmod]

/-- Witness for C4 at the decimal values `4.0` (mantissa 40, exponent -1)
and `4.5` (mantissa 45, exponent -1). -/
theorem c4_decimal_normalization_witness :
    json_safe (.vdecimal ⟨40, -1⟩) = .vint 4
    ∧ json_safe (.vdecimal ⟨45, -1⟩) = .vfloat (⟨45, -1⟩ : PyDecimal).floatValue := by
  constructor
  · obtain ⟨n, hn, hval⟩ := (c4_decimal_normalization ⟨40, -1⟩).1.mpr ⟨4, by
      norm_num [PyDecimal.toRat]⟩
    have : n = 4 := by
      have h4 : ((n : ℤ) : ℚ) = ((4 : ℤ) : ℚ) := by
        rw [hval]; norm_num [PyDecimal.toRat]
      exact_mod_cast h4
    rwa [this] at hn
  · refine (c4_decimal_normalization ⟨45, -1⟩).2 ?_
    rintro ⟨m, hm⟩
    norm_num [PyDecimal.toRat] at hm
    have h2 : (2 * m : ℚ) = 9 := by linarith
    have h3 : (2 * m : ℤ) = 9 := by exact_mod_cast h2
    omega

/-! ## Catalog construction (C1, C7) -/

theorem processRecord_eq (m : Catalog) (r : RawRecord) :
    processRecord m r =
      match recordId r with
      | some k => dictInsert k (Value.vdict (json_safeEntries r)) m
      | none => m := by
  unfold processRecord recordId
  dsimp only
  cases hl : List.lookup "InstanceType" (json_safeEntries r) with
  | none => rfl
  | some v =>
      cases v with
      | vstr s => by_cases hs : s = "" <;> simp [hs]
      | vnull => rfl
      | vbool b => rfl
      | vint n => rfl
      | vfloat q => rfl
      | vlist items => rfl
      | vdict entries => rfl
      | vdatetime t => rfl
      | vdate d => rfl
      | vdecimal d => rfl

theorem processRecord_some (m : Catalog) (r : RawRecord) (k : String)
    (h : recordId r = some k) :
    processRecord m r = dictInsert k (Value.vdict (json_safeEntries r)) m := by
  rw [processRecord_eq, h]

theorem processRecord_of_none (m : Catalog) (r : RawRecord) (h : recordId r = none) :
    processRecord m r = m := by
  rw [processRecord_eq, h]

theorem dictInsert_of_not_mem (k : String) (v : Value) (m : Catalog)
    (hk : k ∉ m.map Prod.fst) :
    dictInsert k v m = m ++ [(k, v)] := by
  have ha : m.any (fun kv => kv.1 == k) = false := by
    rw [List.any_eq_false]
    intro kv hkv
    simp only [beq_iff_eq]
    intro he
    exact hk (he ▸ List.mem_map_of_mem Prod.fst hkv)
  simp [dictInsert, ha]

theorem lookup_append_single (k : String) (v : Value) (m : Catalog)
    (hk : k ∉ m.map Prod.fst) :
    List.lookup k (m ++ [(k, v)]) = some v := by
  induction m with
  | nil => simp [List.lookup]
  | cons kv rest ih =>
      obtain ⟨k0, v0⟩ := kv
      have hne : k ≠ k0 := by
        intro he
        exact hk (by simp [he])
      have hrest : k ∉ rest.map Prod.fst := fun hmem => hk (by simp [hmem])
      simp only [List.cons_append, List.lookup_cons, beq_eq_false_iff_ne.mpr hne]
      exact ih hrest

theorem lookup_map_update (k : String) (v : Value) (m : Catalog)
    (hk : k ∈ m.map Prod.fst) :
    List.lookup k (m.map (fun kv => if kv.1 == k then (kv.1, v) else kv)) = some v := by
  induction m with
  | nil => simp at hk
  | cons kv rest ih =>
      obtain ⟨k0, v0⟩ := kv
      by_cases he : k0 = k
      · subst he
        simp [List.lookup_cons]
      · have h1 : (k0 == k) = false := beq_eq_false_iff_ne.mpr he
        have h2 : (k == k0) = false := beq_eq_false_iff_ne.mpr (Ne.symm he)
        have hk1 : k ∈ k0 :: rest.map Prod.fst := by
          simpa only [List.map_cons] using hk
        have hk2 : k ∈ rest.map Prod.fst := by
          rcases List.mem_cons.mp hk1 with h | h
          · exact absurd h.symm he
          · exact h
        simp only [List.map_cons, h1, Bool.false_eq_true, if_false, List.lookup_cons, h2]
        exact ih hk2

theorem lookup_dictInsert_self (k : String) (v : Value) (m : Catalog) :
    List.lookup k (dictInsert k v m) = some v := by
  by_cases hk : k ∈ m.map Prod.fst
  · unfold dictInsert
    have ha : m.any (fun kv => kv.1 == k) = true := by
      rw [List.any_eq_true]
      obtain ⟨kv, hkv, hfst⟩ := List.mem_map.mp hk
      exact ⟨kv, hkv, by simp [hfst]⟩
    rw [if_pos ha]
    exact lookup_map_update k v m hk
  · rw [dictInsert_of_not_mem k v m hk]
    exact lookup_append_single k v m hk

theorem foldl_keys (records : List RawRecord) (m : Catalog)
    (h : (m.map Prod.fst ++ records.filterMap recordId).Nodup) :
    (records.foldl processRecord m).map Prod.fst
      = m.map Prod.fst ++ records.filterMap recordId := by
  induction records generalizing m with
  | nil => simp
  | cons r rest ih =>
      cases hid : recordId r with
      | none =>
          rw [List.foldl_cons, processRecord_of_none m r hid]
          simp only [List.filterMap_cons, hid] at h ⊢
          exact ih m h
      | some k =>
          rw [List.foldl_cons, processRecord_some m r k hid]
          simp only [List.filterMap_cons, hid] at h ⊢
          have hk : k ∉ m.map Prod.fst := by
            rcases List.nodup_append.mp h with ⟨_, _, hdisj⟩
            intro hmem
            exact hdisj hmem (List.mem_cons_self k _)
          rw [dictInsert_of_not_mem k _ m hk]
          have harr : ∀ l : List String,
              (m ++ [(k, Value.vdict (json_safeEntries r))]).map Prod.fst ++ l
                = m.map Prod.fst ++ (k :: l) := by
            intro l
            simp [List.map_append, List.append_assoc]
          have hnd : ((m ++ [(k, Value.vdict (json_safeEntries r))]).map Prod.fst
              ++ rest.filterMap recordId).Nodup := by
            rw [harr]
            exact h
          rw [ih _ hnd, harr]

theorem filterMap_recordId_eq (records : List RawRecord) (ids : List String)
    (h : records.map recordId = ids.map some) :
    records.filterMap recordId = ids := by
  induction records generalizing ids with
  | nil =>
      cases ids with
      | nil => rfl
      | cons a as => simp at h
  | cons r rest ih =>
      cases ids with
      | nil => simp at h
      | cons a as =>
          simp only [List.map_cons] at h
          injection h with h1 h2
          simp [List.filterMap_cons, h1, ih as h2]

theorem buildCatalog_keys (records : List RawRecord) (ids : List String)
    (hmap : records.map recordId = ids.map some) (hnodup : ids.Nodup) :
    (buildCatalog records).map Prod.fst = ids := by
  have hfm : records.filterMap recordId = ids := filterMap_recordId_eq records ids hmap
  unfold buildCatalog
  rw [foldl_keys records [] (by simpa [hfm] using hnodup)]
  simpa using hfm

theorem lookup_isSome_of_mem_keys (m : Catalog) (k : String)
    (h : k ∈ m.map Prod.fst) : (List.lookup k m).isSome := by
  induction m with
  | nil => simp at h
  | cons kv rest ih =>
      obtain ⟨k0, v0⟩ := kv
      by_cases he : k = k0
      · simp [List.lookup_cons, he]
      · have h1 : (k == k0) = false := beq_eq_false_iff_ne.mpr he
        have hk2 : k ∈ rest.map Prod.fst := by
          rcases List.mem_cons.mp (by simpa only [List.map_cons] using h) with h' | h'
          · exact absurd h' he
          · exact h'
        simp only [List.lookup_cons, h1]
        exact ih hk2

theorem filterMap_lookup_keys (m : Catalog) (l : List String)
    (h : ∀ k ∈ l, (List.lookup k m).isSome) :
    (l.filterMap (fun k => (List.lookup k m).map (fun v => (k, v)))).map Prod.fst = l
    ∧ (l.filterMap (fun k => (List.lookup k m).map (fun v => (k, v)))).length = l.length := by
  induction l with
  | nil => exact ⟨rfl, rfl⟩
  | cons k ks ih =>
      obtain ⟨v, hv⟩ := Option.isSome_iff_exists.mp (h k (List.mem_cons_self k ks))
      obtain ⟨ih1, ih2⟩ := ih (fun x hx => h x (List.mem_cons_of_mem k hx))
      constructor <;> simp [List.filterMap_cons, hv, ih1, ih2]

theorem sortCatalog_keys (m : Catalog)
    (h : ∀ k ∈ sortedKeys m, (List.lookup k m).isSome) :
    (sortCatalog m).map Prod.fst = sortedKeys m :=
  (filterMap_lookup_keys m (sortedKeys m) h).1

theorem sortCatalog_length (m : Catalog)
    (h : ∀ k ∈ sortedKeys m, (List.lookup k m).isSome) :
    (sortCatalog m).length = (sortedKeys m).length :=
  (filterMap_lookup_keys m (sortedKeys m) h).2

theorem char_lt_iff_toNat_lt (a b : Char) : a < b ↔ a.toNat < b.toNat := by
  rw [Char.lt_iff_val_lt_val]
  exact Iff.rfl

theorem char_eq_of_toNat_eq (a b : Char) (h : a.toNat = b.toNat) : a = b :=
  Char.ext (UInt32.ext h)

theorem lexLt_of_lexLe_ne (x y : List Char) (h1 : lexLe x y = true) (h2 : x ≠ y) :
    lexLt x y = true := by
  induction x generalizing y with
  | nil =>
      cases y with
      | nil => exact absurd rfl h2
      | cons d ds => rfl
  | cons c cs ih =>
      cases y with
      | nil => simp [lexLe] at h1
      | cons d ds =>
          simp only [lexLe] at h1
          simp only [lexLt]
          by_cases hlt : c.toNat < d.toNat
          · simp [hlt]
          · by_cases heq : c.toNat = d.toNat
            · have hcd : c = d := char_eq_of_toNat_eq c d heq
              subst hcd
              rw [if_neg (lt_irrefl c.toNat), if_pos rfl] at h1 ⊢
              apply ih ds h1
              intro he
              exact h2 (by rw [he])
            · simp [hlt, heq] at h1

theorem lexLt_iff_lex (x y : List Char) :
    lexLt x y = true ↔ List.Lex (· < ·) x y := by
  induction x generalizing y with
  | nil =>
      cases y with
      | nil =>
          simp only [lexLt]
          constructor
          · intro h
            cases h
          · intro h
            cases h
      | cons d ds =>
          simp only [lexLt]
          constructor
          · intro _
            exact List.Lex.nil
          · intro _
            trivial
  | cons c cs ih =>
      cases y with
      | nil =>
          simp only [lexLt]
          constructor
          · intro h
            cases h
          · intro h
            cases h
      | cons d ds =>
          simp only [lexLt]
          by_cases hlt : c.toNat < d.toNat
          · simp only [hlt, if_true]
            constructor
            · intro _
              exact List.Lex.rel ((char_lt_iff_toNat_lt c d).mpr hlt)
            · intro _
              trivial
          · by_cases heq : c.toNat = d.toNat
            · have hcd : c = d := char_eq_of_toNat_eq c d heq
              subst hcd
              simp only [hlt, if_false, heq, if_true]
              rw [ih ds]
              constructor
              · exact List.Lex.cons
              · intro h
                cases h with
                | rel hr => exact absurd ((char_lt_iff_toNat_lt c c).mp hr) hlt
                | cons ht => exact ht
            · simp only [hlt, if_false, heq, if_false]
              constructor
              · intro h
                cases h
              · intro h
                cases h with
                | rel hr => exact absurd ((char_lt_iff_toNat_lt c d).mp hr) hlt
                | cons _ => exact absurd rfl heq

theorem keyLt_lex (a b : String) (h1 : keyLe a b) (h2 : a ≠ b) :
    List.Lex (· < ·) a.data b.data := by
  apply (lexLt_iff_lex a.data b.data).mp
  apply lexLt_of_lexLe_ne a.data b.data h1
  intro h
  exact h2 (String.ext h)

theorem buildCatalog_append_last (rs : List RawRecord) (r : RawRecord) (k : String)
    (h : recordId r = some k) :
    List.lookup k (buildCatalog (rs ++ [r]))
      = some (Value.vdict (json_safeEntries r)) := by
  unfold buildCatalog
  rw [List.foldl_append, List.foldl_cons, List.foldl_nil,
    processRecord_some _ r k h]
  exact lookup_dictInsert_self k _ _

/-- C1: For every run built from `N` fetched records with unique non-empty
identifiers, the persisted `instance_types` mapping has exactly `N` entries
and its keys appear in strictly ascending code-point lexicographic order;
moreover (for arbitrary records, unique or not) the record processed last
wins: after processing `rs ++ [r]` where `r` carries identifier `k`, the
catalog maps `k` to the normalization of `r`. -/
theorem c1_dedup_sort_lww (records : List RawRecord) (ids : List String)
    (hmap : records.map recordId = ids.map some) (hnodup : ids.Nodup) :
    (sortCatalog (buildCatalog records)).length = records.length
    ∧ ((sortCatalog (buildCatalog records)).map Prod.fst).Pairwise
        (fun a b : String => List.Lex (· < ·) a.data b.data)
    ∧ (∀ (rs : List RawRecord) (r : RawRecord) (k : String), recordId r = some k →
        List.lookup k (buildCatalog (rs ++ [r]))
          = some (Value.vdict (json_safeEntries r))) := by
  have hkeys : (buildCatalog records).map Prod.fst = ids :=
    buildCatalog_keys records ids hmap hnodup
  have hperm : (sortedKeys (buildCatalog records)).Perm ids := by
    unfold sortedKeys
    rw [hkeys]
    exact List.perm_insertionSort keyLe ids
  have hsome : ∀ k ∈ sortedKeys (buildCatalog records),
      (List.lookup k (buildCatalog records)).isSome := by
    intro k hk
    apply lookup_isSome_of_mem_keys
    rw [hkeys]
    exact hperm.mem_iff.mp hk
  refine ⟨?_, ?_, ?_⟩
  · rw [sortCatalog_length _ hsome, hperm.length_eq]
    have h1 : (records.map recordId).length = (ids.map some).length := by rw [hmap]
    simpa using h1.symm
  · rw [sortCatalog_keys _ hsome]
    have hsorted : (sortedKeys (buildCatalog records)).Pairwise keyLe :=
      List.sorted_insertionSort keyLe _
    have hnd : (sortedKeys (buildCatalog records)).Nodup :=
      hperm.nodup_iff.mpr hnodup
    exact (hsorted.and hnd).imp fun hab => keyLt_lex _ _ hab.1 hab.2
  · exact fun rs r k h => buildCatalog_append_last rs r k h

/-- Witness for C1: the two-record run of scenario 1 (`t3.micro` then
`m5.large`), which ends with a two-entry catalog whose keys are in
ascending order. -/
theorem c1_dedup_sort_lww_witness :
    (sortCatalog (buildCatalog
        [[("InstanceType", Value.vstr "t3.micro")],
         [("InstanceType", Value.vstr "m5.large")]])).length = 2 :=
  (c1_dedup_sort_lww
    [[("InstanceType", Value.vstr "t3.micro")],
     [("InstanceType", Value.vstr "m5.large")]]
    ["t3.micro", "m5.large"]
    (by simp [recordId, json_safeEntries, json_safe, List.lookup])
    (by simp)).1

/-- C7: A record whose identifier field is missing, null, not a string, or
the empty string is excluded from the catalog without affecting anything
else: the catalog built with it anywhere in the record stream equals the
catalog built without it, so in particular the count of valid entries is
unchanged.  (Exclusion raises nothing: the model is a total function,
mirroring the `continue` in the source.) -/
theorem c7_malformed_record_skipped (xs ys : List RawRecord) (r : RawRecord)
    (h : recordId r = none) :
    buildCatalog (xs ++ r :: ys) = buildCatalog (xs ++ ys)
    ∧ (sortCatalog (buildCatalog (xs ++ r :: ys))).length
        = (sortCatalog (buildCatalog (xs ++ ys))).length := by
  have hmain : buildCatalog (xs ++ r :: ys) = buildCatalog (xs ++ ys) := by
    unfold buildCatalog
    rw [List.foldl_append, List.foldl_append, List.foldl_cons,
      processRecord_of_none _ r h]
  exact ⟨hmain, by rw [hmain]⟩

/-- Witness for C7: a record with a non-string identifier, one with an
empty identifier, and one with the field missing are all skipped. -/
theorem c7_malformed_record_skipped_witness :
    buildCatalog [[("InstanceType", Value.vstr "a")], [("InstanceType", Value.vint 3)]]
      = buildCatalog [[("InstanceType", Value.vstr "a")]] := by
  have h :=
    (c7_malformed_record_skipped [[("InstanceType", Value.vstr "a")]] []
      [("InstanceType", Value.vint 3)]
      (by simp [recordId, json_safeEntries, json_safe, List.lookup])).1
  simpa using h

/-! ## Serializability of normalized data (towards C2, C3, C8, C9)

`json.dumps` raises only on values `json_safe` never produces, so every
payload assembled from normalized records serializes. -/

mutual

theorem hasExotic_json_safe (v : Value) : hasExotic (json_safe v) = false := by
  cases v with
  | vdict entries => simp [json_safe, hasExotic, hasExoticEntries_json_safe entries]
  | vlist items => simp [json_safe, hasExotic, hasExoticList_json_safe items]
  | vdatetime t => simp [json_safe, hasExotic]
  | vdate d => simp [json_safe, hasExotic]
  | vdecimal d =>
      simp only [json_safe]
      split <;> simp [hasExotic]
  | vnull => rfl
  | vbool b => rfl
  | vint n => rfl
  | vfloat q => rfl
  | vstr s => rfl

theorem hasExoticList_json_safe (l : List Value) :
    hasExoticList (json_safeList l) = false := by
  cases l with
  | nil => rfl
  | cons v vs =>
      simp [json_safeList, hasExoticList, hasExotic_json_safe v, hasExoticList_json_safe vs]

theorem hasExoticEntries_json_safe (l : List (String × Value)) :
    hasExoticEntries (json_safeEntries l) = false := by
  cases l with
  | nil => rfl
  | cons kv rest =>
      obtain ⟨k, v⟩ := kv
      simp [json_safeEntries, hasExoticEntries, hasExotic_json_safe v,
        hasExoticEntries_json_safe rest]

end

theorem hasExoticEntries_eq_false (es : List (String × Value))
    (h : ∀ kv ∈ es, hasExotic kv.2 = false) : hasExoticEntries es = false := by
  induction es with
  | nil => rfl
  | cons kv rest ih =>
      obtain ⟨k, v⟩ := kv
      simp only [hasExoticEntries, Bool.or_eq_false_iff]
      exact ⟨h (k, v) (List.mem_cons_self _ _),
        ih fun x hx => h x (List.mem_cons_of_mem _ hx)⟩

theorem mem_dictInsert (k : String) (v : Value) (m : Catalog) (kv : String × Value)
    (h : kv ∈ dictInsert k v m) : kv ∈ m ∨ kv.2 = v := by
  unfold dictInsert at h
  split at h
  · obtain ⟨kv0, hkv0, heq⟩ := List.mem_map.mp h
    by_cases hc : (kv0.1 == k) = true
    · right
      rw [← heq]
      simp [hc]
    · left
      rw [← heq]
      simp only [hc, Bool.false_eq_true, if_false]
      · exact hkv0
  · rcases List.mem_append.mp h with h1 | h1
    · exact Or.inl h1
    · right
      rw [List.mem_singleton.mp h1]

theorem foldl_values_clean (records : List RawRecord) (m : Catalog)
    (hm : ∀ kv ∈ m, hasExotic kv.2 = false) :
    ∀ kv ∈ records.foldl processRecord m, hasExotic kv.2 = false := by
  induction records generalizing m with
  | nil => exact hm
  | cons r rest ih =>
      rw [List.foldl_cons]
      apply ih
      intro kv hkv
      rw [processRecord_eq] at hkv
      cases hid : recordId r with
      | none =>
          rw [hid] at hkv
          exact hm kv hkv
      | some k =>
          rw [hid] at hkv
          rcases mem_dictInsert _ _ _ _ hkv with h1 | h1
          · exact hm kv h1
          · rw [h1]
            exact hasExoticEntries_json_safe r

theorem buildCatalogPages_eq (pages : List (List RawRecord)) :
    buildCatalogPages pages = buildCatalog pages.flatten := by
  unfold buildCatalogPages buildCatalog
  rw [List.foldl_flatten]

theorem buildCatalogPages_values_clean (pages : List (List RawRecord)) :
    ∀ kv ∈ buildCatalogPages pages, hasExotic kv.2 = false := by
  rw [buildCatalogPages_eq]
  exact foldl_values_clean pages.flatten [] (by simp)

theorem lookup_mem (k : String) (v : Value) (m : Catalog)
    (h : List.lookup k m = some v) : (k, v) ∈ m := by
  induction m with
  | nil => simp [List.lookup] at h
  | cons kv rest ih =>
      obtain ⟨k0, v0⟩ := kv
      rw [List.lookup_cons] at h
      by_cases he : (k == k0) = true
      · simp only [he] at h
        injection h with hv
        rw [beq_iff_eq.mp he, hv]
        exact List.mem_cons_self _ _
      · simp only [Bool.not_eq_true] at he
        simp only [he] at h
        exact List.mem_cons_of_mem _ (ih h)

theorem mem_sortCatalog (m : Catalog) (kv : String × Value)
    (h : kv ∈ sortCatalog m) : kv ∈ m := by
  unfold sortCatalog at h
  obtain ⟨k, hk, hsome⟩ := List.mem_filterMap.mp h
  cases hl : List.lookup k m with
  | none =>
      rw [hl] at hsome
      simp at hsome
  | some v =>
      rw [hl] at hsome
      rw [Option.map_some'] at hsome
      injection hsome with hkv
      rw [← hkv]
      exact lookup_mem k v m hl

theorem hasExotic_payload (region : String) (genAt : List Char) (sortedCat : Catalog)
    (hcat : ∀ kv ∈ sortedCat, hasExotic kv.2 = false) :
    hasExotic (payloadFor region genAt sortedCat) = false := by
  simp [payloadFor, hasExotic, hasExoticEntries, hasExoticList,
    hasExoticEntries_eq_false sortedCat hcat]

theorem finishRun_eq_write (cfg : Config) (stderr0 : List String) (cat : Catalog)
    (now : PyDatetime) (hcat : ∀ kv ∈ cat, hasExotic kv.2 = false)
    (hg : cat.isEmpty = false ∨ cfg.allowEmpty = true) :
    finishRun cfg stderr0 cat now =
      { exitCode := 0, dirCreated := true
        written := some (String.mk
          (serialize 0 (payloadFor cfg.region (genAtChars now) (sortCatalog cat)) ++ ['\n']))
        stderrLines := stderr0 ++ [wroteMsg (sortCatalog cat).length cfg.output] } := by
  unfold finishRun
  have hcond : (cat.isEmpty && !cfg.allowEmpty) = false := by
    rcases hg with h | h <;> simp [h]
  rw [hcond]
  have hexo : hasExotic (payloadFor cfg.region (genAtChars now) (sortCatalog cat)) = false :=
    hasExotic_payload _ _ _ (fun kv hkv => hcat kv (mem_sortCatalog cat kv hkv))
  simp [pyDumps, hexo]

/-! ## Process exit behaviour (C2, C3, C9) -/

/-- C2: On hard failure — the provider call raises without `--allow-empty`,
or the fetch succeeds cleanly with zero records without `--allow-empty` —
the run exits with status 1, no output file is written and no directory is
created; the only observable effect is the diagnostic line. -/
theorem c2_hard_failure (cfg : Config) (fetch : FetchOutcome) (now : PyDatetime) :
    (∀ e, fetch.failure = some e → cfg.allowEmpty = false →
      main cfg fetch now =
        { exitCode := 1, dirCreated := false, written := none
          stderrLines := [failMsg cfg.region e] })
    ∧ (fetch.failure = none → fetch.pages.flatten = [] → cfg.allowEmpty = false →
      main cfg fetch now =
        { exitCode := 1, dirCreated := false, written := none
          stderrLines := [emptyMsg] }) := by
  constructor
  · intro e hf ha
    unfold main
    rw [hf, ha]
    rfl
  · intro hf hp ha
    unfold main
    rw [hf]
    have hcat : buildCatalogPages fetch.pages = [] := by
      rw [buildCatalogPages_eq, hp]
      rfl
    rw [hcat]
    unfold finishRun
    rw [ha]
    rfl

/-- Witness for C2: a failing fetch without `--allow-empty` exits 1 with
nothing written, and so does a clean empty fetch without `--allow-empty`. -/
theorem c2_hard_failure_witness :
    main { defaultConfig with allowEmpty := false }
        { pages := [], failure := some "boom" } ⟨0, 1, 1, 0, 0, 0, 0, 0⟩ =
      { exitCode := 1, dirCreated := false, written := none
        stderrLines := [failMsg "us-east-1" "boom"] }
    ∧ main { defaultConfig with allowEmpty := false }
        { pages := [[]], failure := none } ⟨0, 1, 1, 0, 0, 0, 0, 0⟩ =
      { exitCode := 1, dirCreated := false, written := none
        stderrLines := [emptyMsg] } :=
  ⟨(c2_hard_failure _ _ _).1 "boom" rfl rfl,
   (c2_hard_failure _ _ _).2 rfl rfl rfl⟩

/-- C3: If the provider call fails and `--allow-empty` is set, the run
proceeds with the partial (possibly empty) catalog accumulated before the
failure, writes the document for that catalog, emits the continuation
notice on stderr, and exits with status 0. -/
theorem c3_degraded_mode (cfg : Config) (fetch : FetchOutcome) (now : PyDatetime)
    (e : String) (hf : fetch.failure = some e) (ha : cfg.allowEmpty = true) :
    (main cfg fetch now).exitCode = 0
    ∧ (main cfg fetch now).written = some (String.mk
        (serialize 0 (payloadFor cfg.region (genAtChars now)
          (sortCatalog (buildCatalogPages fetch.pages))) ++ ['\n']))
    ∧ contMsg ∈ (main cfg fetch now).stderrLines := by
  have hrun : main cfg fetch now =
      finishRun cfg [failMsg cfg.region e, contMsg] (buildCatalogPages fetch.pages) now := by
    unfold main
    rw [hf, ha]
    rfl
  rw [hrun, finishRun_eq_write cfg _ _ now (buildCatalogPages_values_clean fetch.pages)
    (Or.inr ha)]
  refine ⟨rfl, rfl, ?_⟩
  simp

/-- Witness for C3: a failing fetch with `--allow-empty` set and no pages
delivered exits 0, writes the empty-catalog document and prints the
continuation notice. -/
theorem c3_degraded_mode_witness :
    (main { defaultConfig with allowEmpty := true }
        { pages := [], failure := some "boom" } ⟨0, 1, 1, 0, 0, 0, 0, 0⟩).exitCode = 0
    ∧ contMsg ∈ (main { defaultConfig with allowEmpty := true }
        { pages := [], failure := some "boom" } ⟨0, 1, 1, 0, 0, 0, 0, 0⟩).stderrLines :=
  ⟨(c3_degraded_mode _ _ _ "boom" rfl rfl).1,
   (c3_degraded_mode _ _ _ "boom" rfl rfl).2.2⟩

/-- C9 (implicit): a clean fetch with zero records and `--allow-empty` set
is a success: the document is written with an empty `instance_types`
mapping and `instance_type_count` 0, and the run exits with status 0. -/
theorem c9_empty_allowed (cfg : Config) (fetch : FetchOutcome) (now : PyDatetime)
    (hf : fetch.failure = none) (hp : fetch.pages.flatten = [])
    (ha : cfg.allowEmpty = true) :
    (main cfg fetch now).exitCode = 0
    ∧ (main cfg fetch now).written = some (String.mk
        (serialize 0 (Value.vdict
          [("generated_at", .vstr (String.mk (genAtChars now))),
           ("query", .vdict [("source_region", .vstr cfg.region)]),
           ("stats", .vdict
              [("instance_type_count", .vint 0), ("offering_count", .vint 0)]),
           ("instance_types", .vdict []),
           ("offerings", .vlist [])]) ++ ['\n'])) := by
  have hcat : buildCatalogPages fetch.pages = [] := by
    rw [buildCatalogPages_eq, hp]
    rfl
  have hrun : main cfg fetch now = finishRun cfg [] (buildCatalogPages fetch.pages) now := by
    unfold main
    rw [hf]
  rw [hrun, hcat, finishRun_eq_write cfg [] [] now (by simp) (Or.inr ha)]
  refine ⟨rfl, ?_⟩
  have hpl : payloadFor cfg.region (genAtChars now) (sortCatalog []) =
      Value.vdict
        [("generated_at", .vstr (String.mk (genAtChars now))),
         ("query", .vdict [("source_region", .vstr cfg.region)]),
         ("stats", .vdict
            [("instance_type_count", .vint 0), ("offering_count", .vint 0)]),
         ("instance_types", .vdict []),
         ("offerings", .vlist [])] := by
    simp [payloadFor, sortCatalog, sortedKeys, List.insertionSort]
  rw [hpl]

/-- Witness for C9: the concrete empty clean run with `--allow-empty`. -/
theorem c9_empty_allowed_witness :
    (main { defaultConfig with allowEmpty := true }
        { pages := [], failure := none } ⟨0, 1, 1, 0, 0, 0, 0, 0⟩).exitCode = 0 :=
  (c9_empty_allowed { defaultConfig with allowEmpty := true }
    { pages := [], failure := none } ⟨0, 1, 1, 0, 0, 0, 0, 0⟩ rfl rfl rfl).1

/-! ## The persisted artifact (C8) -/

theorem finishRun_written (cfg : Config) (stderr0 : List String) (cat : Catalog)
    (now : PyDatetime) (txt : String)
    (h : (finishRun cfg stderr0 cat now).written = some txt) :
    txt = String.mk
      (serialize 0 (payloadFor cfg.region (genAtChars now) (sortCatalog cat)) ++ ['\n']) := by
  unfold finishRun at h
  split at h
  · simp at h
  · unfold pyDumps at h
    dsimp only at h
    by_cases hE : hasExotic (payloadFor cfg.region (genAtChars now) (sortCatalog cat)) = true
    · rw [if_pos hE] at h
      simp at h
    · rw [if_neg hE] at h
      dsimp only at h
      simp only [Option.some.injEq] at h
      exact h.symm

theorem main_written (cfg : Config) (fetch : FetchOutcome) (now : PyDatetime) (txt : String)
    (h : (main cfg fetch now).written = some txt) :
    txt = String.mk
      (serialize 0 (payloadFor cfg.region (genAtChars now)
        (sortCatalog (buildCatalogPages fetch.pages))) ++ ['\n']) := by
  unfold main at h
  cases hfo : fetch.failure with
  | some e =>
      rw [hfo] at h
      dsimp only at h
      split at h
      · simp at h
      · exact finishRun_written _ _ _ _ _ h
  | none =>
      rw [hfo] at h
      exact finishRun_written _ _ _ _ _ h

theorem serialize_vdict_ends (lvl : Nat) (e0 : String × Value) (es : List (String × Value)) :
    ∃ body, serialize lvl (Value.vdict (e0 :: es)) = body ++ [rbrace] := by
  refine ⟨lbrace :: '\n' ::
    (List.intercalate [',', '\n']
        ((sortEntries (e0 :: es)).attach.map
          (fun p => indentChars (lvl + 2) ++ quoteChars p.1.1
            ++ ':' :: ' ' :: serialize (lvl + 2) p.1.2))
      ++ '\n' :: indentChars lvl), ?_⟩
  rw [serialize]
  simp [List.append_assoc]

/-- C8: whenever a run persists a document, the written text is exactly
the serialization of the payload dict holding the five fields
`generated_at`, `query.source_region` (the run region),
`stats.instance_type_count` (the catalog size), `stats.offering_count`
(fixed 0), the sorted `instance_types` mapping, and the empty `offerings`
list, followed by one newline; the text ends in the closing brace and a
single trailing newline; the serializer emits the keys of every mapping at
every nesting level in sorted order (a permutation of that mapping's keys);
and serialization is a pure function of the document, hence byte-for-byte
deterministic. -/
theorem c8_document_shape (cfg : Config) (fetch : FetchOutcome) (now : PyDatetime)
    (txt : String) (h : (main cfg fetch now).written = some txt) :
    txt = String.mk
      (serialize 0 (Value.vdict
        [("generated_at", .vstr (String.mk (genAtChars now))),
         ("query", .vdict [("source_region", .vstr cfg.region)]),
         ("stats", .vdict
            [("instance_type_count",
                .vint ((sortCatalog (buildCatalogPages fetch.pages)).length : Int)),
             ("offering_count", .vint 0)]),
         ("instance_types", .vdict (sortCatalog (buildCatalogPages fetch.pages))),
         ("offerings", .vlist [])]) ++ ['\n'])
    ∧ (∃ body, txt.data = body ++ [rbrace, '\n'])
    ∧ (∀ es : List (String × Value),
        List.Sorted keyLe ((sortEntries es).map Prod.fst)
        ∧ ((sortEntries es).map Prod.fst).Perm (es.map Prod.fst))
    ∧ (∀ v w : Value, v = w → serialize 0 v = serialize 0 w) := by
  have hmain := main_written cfg fetch now txt h
  refine ⟨hmain, ?_, ?_, fun v w hvw => by rw [hvw]⟩
  · obtain ⟨body, hb⟩ := serialize_vdict_ends 0
      ("generated_at", Value.vstr (String.mk (genAtChars now)))
      [("query", .vdict [("source_region", .vstr cfg.region)]),
       ("stats", .vdict
          [("instance_type_count",
              .vint ((sortCatalog (buildCatalogPages fetch.pages)).length : Int)),
           ("offering_count", .vint 0)]),
       ("instance_types", .vdict (sortCatalog (buildCatalogPages fetch.pages))),
       ("offerings", .vlist [])]
    refine ⟨body, ?_⟩
    rw [hmain]
    show serialize 0 (payloadFor cfg.region (genAtChars now)
        (sortCatalog (buildCatalogPages fetch.pages))) ++ ['\n'] = body ++ [rbrace, '\n']
    have hP : payloadFor cfg.region (genAtChars now)
        (sortCatalog (buildCatalogPages fetch.pages))
        = Value.vdict
          (("generated_at", Value.vstr (String.mk (genAtChars now))) ::
            [("query", .vdict [("source_region", .vstr cfg.region)]),
             ("stats", .vdict
                [("instance_type_count",
                    .vint ((sortCatalog (buildCatalogPages fetch.pages)).length : Int)),
                 ("offering_count", .vint 0)]),
             ("instance_types", .vdict (sortCatalog (buildCatalogPages fetch.pages))),
             ("offerings", .vlist [])]) := rfl
    rw [hP, hb, List.append_assoc]
    rfl
  · intro es
    constructor
    · have hs : List.Pairwise entryLe (sortEntries es) :=
        List.sorted_insertionSort entryLe es
      exact (List.pairwise_map).mpr hs
    · exact (List.perm_insertionSort entryLe es).map Prod.fst

/-- Witness for C8: the document written by a concrete successful run ends
in the closing brace and a single newline. -/
theorem c8_document_shape_witness :
    ∃ (txt : String) (body : List Char),
      (main { defaultConfig with allowEmpty := true }
          { pages := [], failure := none } ⟨2026, 1, 2, 3, 4, 5, 0, 0⟩).written = some txt
      ∧ txt.data = body ++ [rbrace, '\n'] := by
  have hrun : main { defaultConfig with allowEmpty := true }
      { pages := [], failure := none } ⟨2026, 1, 2, 3, 4, 5, 0, 0⟩
      = finishRun { defaultConfig with allowEmpty := true } [] []
          ⟨2026, 1, 2, 3, 4, 5, 0, 0⟩ := rfl
  have hw := finishRun_eq_write { defaultConfig with allowEmpty := true } [] []
    ⟨2026, 1, 2, 3, 4, 5, 0, 0⟩ (by simp) (Or.inr rfl)
  have h : (main { defaultConfig with allowEmpty := true }
      { pages := [], failure := none } ⟨2026, 1, 2, 3, 4, 5, 0, 0⟩).written
      = some (String.mk
          (serialize 0 (payloadFor "us-east-1" (genAtChars ⟨2026, 1, 2, 3, 4, 5, 0, 0⟩)
            (sortCatalog [])) ++ ['\n'])) := by
    rw [hrun, hw]
    rfl
  obtain ⟨_, ⟨body, hb⟩, _⟩ := c8_document_shape _ _ _ _ h
  exact ⟨_, body, h, hb⟩

/-! ## Timestamp normalization (C5)

`json_safe` renders an aware datetime as
`astimezone(UTC).isoformat().replace("+00:00", "Z")`.  We show the result
is the fixed-width ISO body followed by a literal `Z`, and that the
explicit parser `parseIsoZ` recovers from it exactly the UTC datetime
`astimezone` produced — i.e. the string determines the instant. -/

theorem parseDigitChar_digitChar (d : Nat) (hd : d < 10) :
    parseDigitChar (digitChar d) = some d := by
  interval_cases d <;> rfl

theorem parse2_pad2 (n : Nat) (h : n < 100) :
    parse2 (digitChar (n / 10)) (digitChar (n % 10)) = some n := by
  unfold parse2
  rw [parseDigitChar_digitChar (n / 10) (by omega), parseDigitChar_digitChar (n % 10) (by omega)]
  simp only [Option.bind_eq_bind, Option.some_bind, Option.pure_def]
  congr 1
  omega

theorem parse4_pad4 (n : Nat) (h : n < 10000) :
    parse4 (digitChar (n / 1000)) (digitChar (n / 100 % 10))
      (digitChar (n / 10 % 10)) (digitChar (n % 10)) = some n := by
  unfold parse4
  have e1 : n / 1000 = n / 100 / 10 := by omega
  have e3 : n / 10 % 10 = n % 100 / 10 := by omega
  have e4 : n % 10 = n % 100 % 10 := by omega
  rw [e1, e3, e4, parse2_pad2 (n / 100) (by omega), parse2_pad2 (n % 100) (by omega)]
  simp only [Option.bind_eq_bind, Option.some_bind, Option.pure_def]
  congr 1
  omega

theorem parse6_pad6 (n : Nat) (h : n < 1000000) :
    parse6 (digitChar (n / 100000)) (digitChar (n / 10000 % 10)) (digitChar (n / 1000 % 10))
      (digitChar (n / 100 % 10)) (digitChar (n / 10 % 10)) (digitChar (n % 10)) = some n := by
  unfold parse6
  have e1 : n / 100000 = n / 10000 / 10 := by omega
  have e3 : n / 1000 % 10 = n / 100 % 100 / 10 := by omega
  have e4 : n / 100 % 10 = n / 100 % 100 % 10 := by omega
  have e5 : n / 10 % 10 = n % 100 / 10 := by omega
  have e6 : n % 10 = n % 100 % 10 := by omega
  rw [e1, e3, e4, e5, e6, parse2_pad2 (n / 10000) (by omega),
    parse2_pad2 (n / 100 % 100) (by omega), parse2_pad2 (n % 100) (by omega)]
  simp only [Option.bind_eq_bind, Option.some_bind, Option.pure_def]
  congr 1
  omega

theorem digitChar_ne_plus (d : Nat) (hd : d < 10) : digitChar d ≠ '+' := by
  interval_cases d <;> decide

theorem plus_not_mem_pad2 (n : Nat) (h : n < 100) : '+' ∉ pad2 n := by
  intro hm
  rcases List.mem_cons.mp hm with h1 | h1
  · exact digitChar_ne_plus _ (by omega) h1.symm
  rcases List.mem_cons.mp h1 with h2 | h2
  · exact digitChar_ne_plus _ (by omega) h2.symm
  · exact List.not_mem_nil _ h2

theorem plus_not_mem_pad4 (n : Nat) (h : n < 10000) : '+' ∉ pad4 n := by
  intro hm
  rcases List.mem_cons.mp hm with h1 | h1
  · exact digitChar_ne_plus _ (by omega) h1.symm
  rcases List.mem_cons.mp h1 with h2 | h2
  · exact digitChar_ne_plus _ (by omega) h2.symm
  rcases List.mem_cons.mp h2 with h3 | h3
  · exact digitChar_ne_plus _ (by omega) h3.symm
  rcases List.mem_cons.mp h3 with h4 | h4
  · exact digitChar_ne_plus _ (by omega) h4.symm
  · exact List.not_mem_nil _ h4

theorem plus_not_mem_pad6 (n : Nat) (h : n < 1000000) : '+' ∉ pad6 n := by
  intro hm
  rcases List.mem_cons.mp hm with h1 | h1
  · exact digitChar_ne_plus _ (by omega) h1.symm
  rcases List.mem_cons.mp h1 with h2 | h2
  · exact digitChar_ne_plus _ (by omega) h2.symm
  rcases List.mem_cons.mp h2 with h3 | h3
  · exact digitChar_ne_plus _ (by omega) h3.symm
  rcases List.mem_cons.mp h3 with h4 | h4
  · exact digitChar_ne_plus _ (by omega) h4.symm
  rcases List.mem_cons.mp h4 with h5 | h5
  · exact digitChar_ne_plus _ (by omega) h5.symm
  rcases List.mem_cons.mp h5 with h6 | h6
  · exact digitChar_ne_plus _ (by omega) h6.symm
  · exact List.not_mem_nil _ h6

theorem offsetSuffix_zero : offsetSuffix 0 = plusZeroChars := by
  decide

theorem replaceAll_append_pat (body : List Char) (h : '+' ∉ body) :
    replaceAll plusZeroChars ['Z'] (body ++ plusZeroChars) = body ++ ['Z'] := by
  induction body with
  | nil =>
      simp [replaceAll, plusZeroChars]
  | cons c cs ih =>
      have hc : c ≠ '+' := fun he => h (he ▸ List.mem_cons_self c cs)
      have hcs : '+' ∉ cs := fun hm => h (List.mem_cons_of_mem c hm)
      rw [List.cons_append]
      simp only [replaceAll]
      rw [if_neg (by decide : ¬plusZeroChars.isEmpty = true)]
      rw [if_neg ?htake]
      · rw [ih hcs]
        simp
      · intro hEq
        apply hc
        have : ((c :: (cs ++ plusZeroChars)).take plusZeroChars.length).head? = some c := by
          simp [plusZeroChars]
        rw [hEq] at this
        simpa [plusZeroChars] using this.symm

theorem datetimeFromInstant_ranges (i : Int) :
    1 ≤ (datetimeFromInstant i).month ∧ (datetimeFromInstant i).month ≤ 12
    ∧ 1 ≤ (datetimeFromInstant i).day ∧ (datetimeFromInstant i).day ≤ 31
    ∧ 0 ≤ (datetimeFromInstant i).hour ∧ (datetimeFromInstant i).hour ≤ 23
    ∧ 0 ≤ (datetimeFromInstant i).minute ∧ (datetimeFromInstant i).minute ≤ 59
    ∧ 0 ≤ (datetimeFromInstant i).second ∧ (datetimeFromInstant i).second ≤ 59
    ∧ 0 ≤ (datetimeFromInstant i).microsecond
    ∧ (datetimeFromInstant i).microsecond ≤ 999999 := by
  unfold datetimeFromInstant civilFromDays
  dsimp only
  split_ifs <;>
    refine ⟨by omega, by omega, by omega, by omega, by omega, by omega, by omega, by omega,
      by omega, by omega, by omega, by omega⟩

theorem parseIsoZ_render (y mo d h mi s us : Int)
    (hy : 0 ≤ y) (hy2 : y ≤ 9999) (hmo : 0 ≤ mo) (hmo2 : mo ≤ 99)
    (hd : 0 ≤ d) (hd2 : d ≤ 99) (hh : 0 ≤ h) (hh2 : h ≤ 99)
    (hmi : 0 ≤ mi) (hmi2 : mi ≤ 99) (hs : 0 ≤ s) (hs2 : s ≤ 99)
    (hus : 0 ≤ us) (hus2 : us ≤ 999999) :
    parseIsoZ ((pad4 y.toNat ++ '-' :: pad2 mo.toNat ++ '-' :: pad2 d.toNat
      ++ 'T' :: pad2 h.toNat ++ ':' :: pad2 mi.toNat ++ ':' :: pad2 s.toNat
      ++ (if us = 0 then [] else '.' :: pad6 us.toNat)) ++ ['Z'])
      = some ⟨y, mo, d, h, mi, s, us, 0⟩ := by
  by_cases h0 : us = 0
  · subst h0
    rw [if_pos rfl]
    simp only [pad4, pad2, List.cons_append, List.nil_append, List.append_nil]
    simp only [parseIsoZ]
    rw [parse4_pad4 y.toNat (by omega), parse2_pad2 mo.toNat (by omega),
      parse2_pad2 d.toNat (by omega), parse2_pad2 h.toNat (by omega),
      parse2_pad2 mi.toNat (by omega), parse2_pad2 s.toNat (by omega)]
    simp only [Option.bind_eq_bind, Option.some_bind, Option.pure_def, Option.some.injEq]
    simp only [PyDatetime.mk.injEq]
    refine ⟨by omega, by omega, by omega, by omega, by omega, by omega, trivial, trivial⟩
  · rw [if_neg h0]
    simp only [pad4, pad2, pad6, List.cons_append, List.nil_append]
    simp only [parseIsoZ]
    rw [parse4_pad4 y.toNat (by omega), parse2_pad2 mo.toNat (by omega),
      parse2_pad2 d.toNat (by omega), parse2_pad2 h.toNat (by omega),
      parse2_pad2 mi.toNat (by omega), parse2_pad2 s.toNat (by omega),
      parse6_pad6 us.toNat (by omega)]
    simp only [Option.bind_eq_bind, Option.some_bind, Option.pure_def, Option.some.injEq]
    simp only [PyDatetime.mk.injEq]
    refine ⟨by omega, by omega, by omega, by omega, by omega, by omega, by omega, trivial⟩

/-- C5: For every timezone-aware timestamp `t` whose UTC conversion is
representable (Python's own constraint: the converted year lies in
`[0, 9999]`; `astimezone` raises `OverflowError` otherwise), `json_safe`
returns the string `astimezone(UTC).isoformat().replace("+00:00", "Z")`,
that string ends in a literal `Z` (never the `+00:00` suffix form), and
parsing it back recovers exactly the UTC datetime `t` was converted to —
the same instant as `t` in UTC. -/
theorem c5_timestamp_normalization (t : PyDatetime)
    (hy0 : 0 ≤ t.astimezoneUTC.year) (hy1 : t.astimezoneUTC.year ≤ 9999) :
    json_safe (.vdatetime t) = .vstr (String.mk (jsonSafeDatetimeChars t))
    ∧ (∃ body, jsonSafeDatetimeChars t = body ++ ['Z'])
    ∧ parseIsoZ (jsonSafeDatetimeChars t) = some t.astimezoneUTC := by
  obtain ⟨hmo1, hmo2, hd1, hd2, hh1, hh2, hmi1, hmi2, hs1, hs2, hus1, hus2⟩ :=
    datetimeFromInstant_ranges t.utcInstantMicros
  have hA : t.astimezoneUTC = datetimeFromInstant t.utcInstantMicros := rfl
  rw [← hA] at hmo1 hmo2 hd1 hd2 hh1 hh2 hmi1 hmi2 hs1 hs2 hus1 hus2
  have hoff : t.astimezoneUTC.offsetMicros = 0 := rfl
  have hbody : '+' ∉ (pad4 t.astimezoneUTC.year.toNat
      ++ '-' :: pad2 t.astimezoneUTC.month.toNat ++ '-' :: pad2 t.astimezoneUTC.day.toNat
      ++ 'T' :: pad2 t.astimezoneUTC.hour.toNat ++ ':' :: pad2 t.astimezoneUTC.minute.toNat
      ++ ':' :: pad2 t.astimezoneUTC.second.toNat
      ++ (if t.astimezoneUTC.microsecond = 0 then []
          else '.' :: pad6 t.astimezoneUTC.microsecond.toNat)) := by
    intro hm
    rcases List.mem_append.mp hm with h | h
    · rcases List.mem_append.mp h with h | h
      · rcases List.mem_append.mp h with h | h
        · rcases List.mem_append.mp h with h | h
          · rcases List.mem_append.mp h with h | h
            · rcases List.mem_append.mp h with h | h
              · exact plus_not_mem_pad4 _ (by omega) h
              · rcases List.mem_cons.mp h with h | h
                · exact absurd h (by decide)
                · exact plus_not_mem_pad2 _ (by omega) h
            · rcases List.mem_cons.mp h with h | h
              · exact absurd h (by decide)
              · exact plus_not_mem_pad2 _ (by omega) h
          · rcases List.mem_cons.mp h with h | h
            · exact absurd h (by decide)
            · exact plus_not_mem_pad2 _ (by omega) h
        · rcases List.mem_cons.mp h with h | h
          · exact absurd h (by decide)
          · exact plus_not_mem_pad2 _ (by omega) h
      · rcases List.mem_cons.mp h with h | h
        · exact absurd h (by decide)
        · exact plus_not_mem_pad2 _ (by omega) h
    · split_ifs at h with h0
      · exact List.not_mem_nil _ h
      · rcases List.mem_cons.mp h with h | h
        · exact absurd h (by decide)
        · exact plus_not_mem_pad6 _ (by omega) h
  have hrepl : jsonSafeDatetimeChars t
      = (pad4 t.astimezoneUTC.year.toNat
          ++ '-' :: pad2 t.astimezoneUTC.month.toNat
          ++ '-' :: pad2 t.astimezoneUTC.day.toNat
          ++ 'T' :: pad2 t.astimezoneUTC.hour.toNat
          ++ ':' :: pad2 t.astimezoneUTC.minute.toNat
          ++ ':' :: pad2 t.astimezoneUTC.second.toNat
          ++ (if t.astimezoneUTC.microsecond = 0 then []
              else '.' :: pad6 t.astimezoneUTC.microsecond.toNat)) ++ ['Z'] := by
    unfold jsonSafeDatetimeChars
    have hiso : isoformatChars t.astimezoneUTC
        = (pad4 t.astimezoneUTC.year.toNat
            ++ '-' :: pad2 t.astimezoneUTC.month.toNat
            ++ '-' :: pad2 t.astimezoneUTC.day.toNat
            ++ 'T' :: pad2 t.astimezoneUTC.hour.toNat
            ++ ':' :: pad2 t.astimezoneUTC.minute.toNat
            ++ ':' :: pad2 t.astimezoneUTC.second.toNat
            ++ (if t.astimezoneUTC.microsecond = 0 then []
                else '.' :: pad6 t.astimezoneUTC.microsecond.toNat)) ++ plusZeroChars := by
      unfold isoformatChars
      rw [hoff, offsetSuffix_zero]
    rw [hiso]
    exact replaceAll_append_pat _ hbody
  have heta : (⟨t.astimezoneUTC.year, t.astimezoneUTC.month, t.astimezoneUTC.day,
      t.astimezoneUTC.hour, t.astimezoneUTC.minute, t.astimezoneUTC.second,
      t.astimezoneUTC.microsecond, 0⟩ : PyDatetime) = t.astimezoneUTC := by
    rw [← hoff]
  refine ⟨by simp [json_safe], ⟨_, hrepl⟩, ?_⟩
  rw [hrepl]
  exact (parseIsoZ_render t.astimezoneUTC.year t.astimezoneUTC.month t.astimezoneUTC.day
    t.astimezoneUTC.hour t.astimezoneUTC.minute t.astimezoneUTC.second
    t.astimezoneUTC.microsecond hy0 hy1 (by omega) (by omega) (by omega) (by omega)
    (by omega) (by omega) (by omega) (by omega) (by omega) (by omega) (by omega)
    (by omega)).trans (congrArg some heta)

/-- Witness for C5: a concrete aware timestamp two hours east of UTC with a
nonzero microsecond field. -/
theorem c5_timestamp_normalization_witness :
    json_safe (.vdatetime ⟨2024, 3, 1, 12, 30, 45, 500000, 7200000000⟩)
      = .vstr (String.mk (jsonSafeDatetimeChars ⟨2024, 3, 1, 12, 30, 45, 500000, 7200000000⟩))
    ∧ (∃ body, jsonSafeDatetimeChars ⟨2024, 3, 1, 12, 30, 45, 500000, 7200000000⟩
        = body ++ ['Z'])
    ∧ parseIsoZ (jsonSafeDatetimeChars ⟨2024, 3, 1, 12, 30, 45, 500000, 7200000000⟩)
      = some (PyDatetime.astimezoneUTC ⟨2024, 3, 1, 12, 30, 45, 500000, 7200000000⟩) :=
  c5_timestamp_normalization ⟨2024, 3, 1, 12, 30, 45, 500000, 7200000000⟩
    (by decide) (by decide)

end CatalogGen
